import Mathlib

/-
Shallow embedding of the pkok/behavior-engine repository (C++ headers under
src/).  Float values are modeled as rationals (ℚ): every arithmetic step the
claims exercise stays within exact rational arithmetic, and places where the
C++ float semantics would leave the reals (division by zero producing ±inf or
NaN, unsigned index underflow) are modeled explicitly with Option or noted in
the doc comment of the definition involved.
-/

namespace BehaviorEngine

/-- Model of `enum class UtilityScore : int` from src/Decision.h
(Ignore = 0, SlightlyUseful = 1, Useful = 2, VeryUseful = 3, MostUseful = 4). -/
inductive UtilityScore : Type
  | Ignore
  | SlightlyUseful
  | Useful
  | VeryUseful
  | MostUseful
  deriving DecidableEq

/-- Numeric value of a tier, modeling `static_cast<float>(utility)`. -/
def UtilityScore.toRat : UtilityScore → ℚ
  | .Ignore => 0
  | .SlightlyUseful => 1
  | .Useful => 2
  | .VeryUseful => 3
  | .MostUseful => 4

/-- Model of `inline float scale(float value, float min, float max)` from
src/Consideration.h lines 9-11 (the identical helper also appears as
Transform::scale in src/Transform.h lines 9-11): `(value - min) / (max - min)`.
Division is Lean's total rational division; the `max = min` edge, where the
C++ float division by zero produces a non-finite value, is modeled separately
by `scaleChecked` below. -/
def scale (value mn mx : ℚ) : ℚ :=
  (value - mn) / (mx - mn)

/-- Definedness-aware model of the same scale helper.  When `mx - mn = 0` the
C++ expression `(value - min) / (max - min)` divides by zero: in IEEE-754
float arithmetic the result is +inf or -inf (or NaN when additionally
`value = mn`), never the real number 0; that non-finite outcome is modeled as
`none`.  Otherwise the exact quotient is returned. -/
def scaleChecked (value mn mx : ℚ) : Option ℚ :=
  if mx - mn = 0 then none else some ((value - mn) / (mx - mn))

/-- On non-degenerate ranges the two models of the scale helper agree. -/
theorem scaleChecked_eq_scale (value mn mx : ℚ) (h : mx - mn ≠ 0) :
    scaleChecked value mn mx = some (scale value mn mx) := by
  simp [scaleChecked, scale, h]

/-- Model of `inline float clip(float value, float min=0.f, float max=1.f)`
from src/Consideration.h lines 13-15:
`value > max ? max : value < min ? min : value`. -/
def clip (value mn mx : ℚ) : ℚ :=
  if value > mx then mx else if value < mn then mn else value

theorem clip_le (value mn mx : ℚ) (h : mn ≤ mx) : clip value mn mx ≤ mx := by
  unfold clip
  split_ifs with h1 h2
  · exact le_refl mx
  · exact h
  · linarith

theorem le_clip (value mn mx : ℚ) (h : mn ≤ mx) : mn ≤ clip value mn mx := by
  unfold clip
  split_ifs with h1 h2
  · exact h
  · exact le_refl mn
  · linarith

/-- Model of `class Consideration` from src/Consideration.h.  The sensor
callback `utilityFunction_` is modeled by the single rational value it
returns during the evaluation at hand (the claims assume score evaluation is
deterministic within a call); `spline_` is an arbitrary ℚ → ℚ function. -/
structure Consideration where
  description : String
  sensor : ℚ
  spline : ℚ → ℚ
  min : ℚ
  max : ℚ

/-- Model of `Consideration::computeScore` from src/Consideration.h lines
58-61: `clip(spline_(scale(utilityFunction_(), min_, max_)))`. -/
def Consideration.computeScore (c : Consideration) : ℚ :=
  clip (c.spline (scale c.sensor c.min c.max)) 0 1

/-- Shared fact: the spline-based `Consideration::computeScore` always lands
in [0, 1] because of the final clip, whatever the sensor value, range and
spline are. -/
theorem consideration_score_mem (c : Consideration) :
    0 ≤ c.computeScore ∧ c.computeScore ≤ 1 :=
  ⟨le_clip _ 0 1 (by norm_num), clip_le _ 0 1 (by norm_num)⟩

/-- Model of the Transform-based Consideration iteration from
src/unnamed/part_006 (the same shape appears in part_007): `computeScore`
applies the transform directly to the raw sensor value, with no final clip. -/
structure Consideration006 where
  description : String
  sensor : ℚ
  transform : ℚ → ℚ → ℚ → ℚ
  min : ℚ
  max : ℚ

/-- Model of `Consideration::computeScore` from src/unnamed/part_006 lines
23-27: `transform(utilityFunction(), min, max)`. -/
def Consideration006.computeScore (c : Consideration006) : ℚ :=
  c.transform c.sensor c.min c.max

namespace Transform

/-- Model of `Transform::Identity()` from src/Transform.h:
`scale(value, min, max)`. -/
def Identity : ℚ → ℚ → ℚ → ℚ :=
  fun value mn mx => scale value mn mx

/-- Model of `Transform::Inverted()` from src/Transform.h:
`1. - scale(value, min, max)`. -/
def Inverted : ℚ → ℚ → ℚ → ℚ :=
  fun value mn mx => 1 - scale value mn mx

/-- Model of `Transform::Binary(float threshold)` from src/Transform.h:
`value >= threshold ? 1 : 0` (the range arguments are ignored). -/
def Binary (threshold : ℚ) : ℚ → ℚ → ℚ → ℚ :=
  fun value _ _ => if value ≥ threshold then 1 else 0

/-- Model of `Transform::Linear(float slope, float intercept)` from
src/Transform.h: `clip(slope * scale(value, min, max) + intercept)`.
(Transform::Exponential and Transform::Power use real powers of floats and
are not exercised by any claim, so they are not part of the rational model.) -/
def Linear (slope intercept : ℚ) : ℚ → ℚ → ℚ → ℚ :=
  fun value mn mx => clip (slope * scale value mn mx + intercept) 0 1

end Transform

/-- Model of `class Decision` from src/Decision.h.  The Action callback and
the execution timestamp fields take no part in any scoring or registration
claim and are left out of the pure model. -/
structure Decision where
  name : String
  description : String
  utility : UtilityScore
  considerations : List Consideration

/-- Loop of `Decision::computeScore` (src/Decision.h lines 69-74): multiply
the running total by the adjusted consideration score
`score + (1 - score) * modification_factor * score` and break as soon as the
total drops below 1e-6. -/
def Decision.scoreLoop (mf : ℚ) : ℚ → List Consideration → ℚ
  | total, [] => total
  | total, c :: rest =>
    let score := c.computeScore
    let total2 := total * (score + (1 - score) * mf * score)
    if total2 < 1 / 1000000 then total2 else Decision.scoreLoop mf total2 rest

/-- Model of `Decision::computeScore` from src/Decision.h lines 66-76.  The
modification factor is `1.f - (1.f / considerations.size())`; when the list is
empty the C++ divides by zero (yielding -inf) but the factor is never read
because the loop body never runs, and the initial total (the cast tier) is
returned.  Lean's `1 / 0 = 0` likewise leaves the factor unused there. -/
def Decision.computeScore (d : Decision) : ℚ :=
  let mf : ℚ := 1 - 1 / (d.considerations.length : ℚ)
  Decision.scoreLoop mf d.utility.toRat d.considerations

/-- Every tier value is non-negative. -/
theorem utility_toRat_nonneg (u : UtilityScore) : 0 ≤ u.toRat := by
  cases u <;> norm_num [UtilityScore.toRat]

/-- The per-consideration adjustment stays in [0, 1] when the score and the
modification factor do. -/
theorem adjusted_mem (s mf : ℚ) (hs0 : 0 ≤ s) (hs1 : s ≤ 1)
    (hm0 : 0 ≤ mf) (hm1 : mf ≤ 1) :
    0 ≤ s + (1 - s) * mf * s ∧ s + (1 - s) * mf * s ≤ 1 := by
  have hns : 0 ≤ (1 - s) * s := mul_nonneg (by linarith) hs0
  constructor
  · nlinarith [mul_nonneg hm0 hns]
  · nlinarith [mul_le_of_le_one_left hns hm1, sq_nonneg (1 - s)]

/-- The score loop never increases the running total and keeps it
non-negative, as long as all consideration scores and the modification factor
lie in [0, 1]. -/
theorem scoreLoop_bounds (mf : ℚ) (hm0 : 0 ≤ mf) (hm1 : mf ≤ 1) :
    ∀ (l : List Consideration) (total : ℚ), 0 ≤ total →
      (∀ c ∈ l, 0 ≤ c.computeScore ∧ c.computeScore ≤ 1) →
      0 ≤ Decision.scoreLoop mf total l ∧ Decision.scoreLoop mf total l ≤ total := by
  intro l
  induction l with
  | nil => intro total htot _; exact ⟨htot, le_refl total⟩
  | cons c rest ih =>
    intro total htot hl
    have hc := hl c (List.mem_cons_self c rest)
    have hadj := adjusted_mem c.computeScore mf hc.1 hc.2 hm0 hm1
    have htot2 : 0 ≤ total * (c.computeScore +
        (1 - c.computeScore) * mf * c.computeScore) := by
      exact mul_nonneg htot hadj.1
    have htot2' : total * (c.computeScore +
        (1 - c.computeScore) * mf * c.computeScore) ≤ total := by
      nlinarith [hadj.1, hadj.2]
    simp only [Decision.scoreLoop]
    split
    · exact ⟨htot2, htot2'⟩
    · have := ih (total * (c.computeScore +
        (1 - c.computeScore) * mf * c.computeScore)) htot2
        (fun c' hc' => hl c' (List.mem_cons_of_mem c hc'))
      exact ⟨this.1, le_trans this.2 htot2'⟩

/-- The modification factor `1 - 1/k` lies in [0, 1] for every natural k
(including k = 0, where Lean's total division gives 1 - 0 = 1; the C++ -inf
in that case is never read, see `Decision.computeScore`). -/
theorem mf_mem (k : ℕ) : 0 ≤ 1 - 1 / (k : ℚ) ∧ 1 - 1 / (k : ℚ) ≤ 1 := by
  rcases Nat.eq_zero_or_pos k with hk | hk
  · subst hk; norm_num
  · have hk' : (1 : ℚ) ≤ (k : ℚ) := by exact_mod_cast hk
    have h0 : (0 : ℚ) < (k : ℚ) := by linarith
    constructor
    · have : (1 : ℚ) / (k : ℚ) ≤ 1 := by
        rw [div_le_one h0]; exact hk'
      linarith
    · have : (0 : ℚ) ≤ 1 / (k : ℚ) := by positivity
      linarith

/-- Shared fact behind C3: the composite score of a Decision lies between 0
and its tier whenever all of its consideration scores lie in [0, 1]. -/
theorem decision_score_bounds_aux (d : Decision)
    (h : ∀ c ∈ d.considerations, 0 ≤ c.computeScore ∧ c.computeScore ≤ 1) :
    0 ≤ d.computeScore ∧ d.computeScore ≤ d.utility.toRat := by
  have hmf := mf_mem d.considerations.length
  have := scoreLoop_bounds (1 - 1 / (d.considerations.length : ℚ)) hmf.1 hmf.2
    d.considerations d.utility.toRat (utility_toRat_nonneg d.utility) h
  exact ⟨this.1, this.2⟩

/-- A concrete spline-based Consideration whose sensor reads 0 on a [0, 1]
range and whose curve is the constant 1/2. -/
def halfConsideration : Consideration :=
  Consideration.mk ("constantly one half") 0 (fun _ => 1 / 2) 0 1

/-- A concrete Decision of tier Useful with the single `halfConsideration`. -/
def demoDecision : Decision :=
  Decision.mk ("demo") ("a Useful decision") UtilityScore.Useful [halfConsideration]

/-- C2 (amended): for every Consideration of src/Consideration.h and every
value returned by its sensor callback (including values outside [min, max]),
computeScore() lands in the closed interval [0, 1], because of the final
clip.  (The Transform-based Consideration of src/unnamed/part_006 applies its
transform with no final clip and can escape the interval; see the
counterexample below.) -/
theorem consideration_computeScore_mem_unit (c : Consideration) :
    0 ≤ c.computeScore ∧ c.computeScore ≤ 1 :=
  consideration_score_mem c

/-- C2 counterexample: the Transform-based Consideration of
src/unnamed/part_006 with the Identity transform, range [0, 1] and a sensor
reading of 2 (outside the range) returns the score 2, which is greater
than 1. -/
theorem consideration006_score_two :
    (Consideration006.mk ("raw") 2 Transform.Identity 0 1).computeScore = 2 ∧
    ¬ ((Consideration006.mk ("raw") 2 Transform.Identity 0 1).computeScore ≤ 1) := by
  norm_num [Consideration006.computeScore, Transform.Identity, scale]

/-- C3: for every Decision whose Considerations each score inside [0, 1],
computeScore() lies between 0 and the numeric tier: the per-consideration
adjustment `c + (1-c)·f·c` with `f = 1 - 1/k` never exceeds 1 on [0, 1], so
the running product starting at the tier never grows. -/
theorem decision_computeScore_bounds (d : Decision)
    (h : ∀ c ∈ d.considerations, 0 ≤ c.computeScore ∧ c.computeScore ≤ 1) :
    0 ≤ d.computeScore ∧ d.computeScore ≤ d.utility.toRat :=
  decision_score_bounds_aux d h

/-- Witness for C3 at a concrete Useful-tier Decision with one Consideration
scoring 1/2. -/
theorem decision_computeScore_bounds_witness :
    0 ≤ demoDecision.computeScore ∧
    demoDecision.computeScore ≤ demoDecision.utility.toRat := by
  apply decision_computeScore_bounds
  intro c hc
  have hc' : c = halfConsideration := by
    simpa [demoDecision] using hc
  subst hc'
  norm_num [Consideration.computeScore, halfConsideration, clip, scale]

/-- C9: a Decision constructed with an empty considerations list scores
exactly the numeric value of its tier: the modification factor (a division by
zero in the C++ float code) is never used because the loop over
considerations does not execute, and the initial total is returned. -/
theorem decision_no_considerations_score (n d : String) (u : UtilityScore) :
    (Decision.mk n d u []).computeScore = u.toRat := rfl

/-- C7 (code bug): the shared scale helper (src/Transform.h lines 9-11 and
src/Consideration.h lines 9-11) has no special case for min = max, although
the specification requires the result to be defined as 0 there.  At value 1
with min = max = 5 the C++ float division (1-5)/(5-5) produces -inf, a
non-finite value; in the definedness-aware model the result is `none` — in
particular it is not 0. -/
theorem scale_degenerate_range_not_zero :
    scaleChecked 1 5 5 = none ∧ scaleChecked 1 5 5 ≠ some 0 := by
  have h : scaleChecked 1 5 5 = none := by norm_num [scaleChecked]
  exact ⟨h, by rw [h]; exact fun hc => Option.noConfusion hc⟩

namespace Spline

/-- Model of `struct P2` from the Spline header (src/unnamed/part_000). -/
structure P2 where
  x : ℚ
  y : ℚ

/-- Default point used to totalize list indexing in the model.  The indexing
of the C++ code stays in bounds on every path the theorems traverse, so this
default is never the value actually read there. -/
def dflt : P2 := P2.mk 0 0

/-- Inner loop of Spline::Linear (src/unnamed/part_000 lines 21-32): scan
consecutive point pairs a, b; when `x >= a.x && x <= b.x` return the linear
interpolation `(1 - t) * a.y + t * b.y` with `t = (x - a.x) / (b.x - a.x)`;
`none` models falling through the loop. -/
def linearSegs : List P2 → ℚ → Option ℚ
  | a :: b :: rest, x =>
    if x ≥ a.x ∧ x ≤ b.x then
      some ((1 - (x - a.x) / (b.x - a.x)) * a.y + (x - a.x) / (b.x - a.x) * b.y)
    else linearSegs (b :: rest) x
  | _, _ => none

/-- Model of the closure returned by Spline::Linear (src/unnamed/part_000
lines 16-36).  The C++ builds a closure over the point vector; the model
takes the points and the evaluation input together. -/
def Linear (points : List P2) (x : ℚ) : ℚ :=
  if x ≤ (points.headD dflt).x then (points.headD dflt).y
  else if x ≥ (points.getLastD dflt).x then (points.getLastD dflt).y
  else
    match linearSegs points x with
    | some y => y
    | none => (points.getLastD dflt).y

/-- Inner loop of Spline::StepBefore (src/unnamed/part_000 lines 43-50):
inside segment [a.x, b.x] the "next" value b.y is returned. -/
def stepBeforeSegs : List P2 → ℚ → Option ℚ
  | a :: b :: rest, x =>
    if x ≥ a.x ∧ x ≤ b.x then some b.y else stepBeforeSegs (b :: rest) x
  | _, _ => none

/-- Model of the closure returned by Spline::StepBefore (src/unnamed/part_000
lines 38-54). -/
def StepBefore (points : List P2) (x : ℚ) : ℚ :=
  if x ≤ (points.headD dflt).x then (points.headD dflt).y
  else if x ≥ (points.getLastD dflt).x then (points.getLastD dflt).y
  else
    match stepBeforeSegs points x with
    | some y => y
    | none => (points.getLastD dflt).y

/-- Inner loop of Spline::StepAfter (src/unnamed/part_000 lines 61-68):
inside segment [a.x, b.x] the "previous" value a.y is returned. -/
def stepAfterSegs : List P2 → ℚ → Option ℚ
  | a :: b :: rest, x =>
    if x ≥ a.x ∧ x ≤ b.x then some a.y else stepAfterSegs (b :: rest) x
  | _, _ => none

/-- Model of the closure returned by Spline::StepAfter (src/unnamed/part_000
lines 56-72).  Its fallthrough `return points[count].y` with
`count = size - 1` is the last point's y, like the other variants. -/
def StepAfter (points : List P2) (x : ℚ) : ℚ :=
  if x ≤ (points.headD dflt).x then (points.headD dflt).y
  else if x ≥ (points.getLastD dflt).x then (points.getLastD dflt).y
  else
    match stepAfterSegs points x with
    | some y => y
    | none => (points.getLastD dflt).y

/-- Per-segment x deltas of Spline::Monotone (src/unnamed/part_000 lines
81-90): `deltaXs[i] = points[i+1].x - points[i].x`. -/
def deltaXs (points : List P2) : List ℚ :=
  (List.range (points.length - 1)).map fun i =>
    (points.getD (i + 1) dflt).x - (points.getD i dflt).x

/-- Per-segment secant slopes of Spline::Monotone (src/unnamed/part_000 lines
81-90): `slopes[i] = (points[i+1].y - points[i].y) / deltaXs[i]`. -/
def slopes (points : List P2) : List ℚ :=
  (List.range (points.length - 1)).map fun i =>
    ((points.getD (i + 1) dflt).y - (points.getD i dflt).y) /
      ((points.getD (i + 1) dflt).x - (points.getD i dflt).x)

/-- Fritsch-Carlson tangent coefficients of Spline::Monotone
(src/unnamed/part_000 lines 92-109): index 0 gets slopes[0], the last index
gets slopes.back(), and an interior index i gets 0 when the two neighboring
slopes have opposite signs, else the harmonic-style combination computed by
the C++ loop (whose loop variable corresponds to i - 1 here). -/
def coeffs1 (points : List P2) : List ℚ :=
  (List.range ((points.length - 1) + 1)).map fun i =>
    if i = 0 then (slopes points).getD 0 0
    else if i = points.length - 1 then (slopes points).getD (points.length - 1 - 1) 0
    else
      let slope := (slopes points).getD (i - 1) 0
      let slopeNext := (slopes points).getD i 0
      if slope * slopeNext ≤ 0 then 0
      else
        let dx := (deltaXs points).getD (i - 1) 0
        let dxNext := (deltaXs points).getD i 0
        let common := dx + dxNext
        3 * common / ((common + dxNext) / slope + (common + dx) / slopeNext)

/-- Quadratic coefficients of Spline::Monotone (src/unnamed/part_000 lines
111-119): `c2[i] = (slope - c1[i] - common) * invDx` with
`common = c1[i] + c1[i+1] - 2 * slope` and `invDx = 1 / deltaXs[i]`. -/
def coeffs2 (points : List P2) : List ℚ :=
  (List.range (points.length - 1)).map fun i =>
    let c1i := (coeffs1 points).getD i 0
    let slope := (slopes points).getD i 0
    let invDx := 1 / (deltaXs points).getD i 0
    let common := c1i + (coeffs1 points).getD (i + 1) 0 - 2 * slope
    (slope - c1i - common) * invDx

/-- Cubic coefficients of Spline::Monotone (src/unnamed/part_000 lines
111-119): `c3[i] = common * invDx * invDx`. -/
def coeffs3 (points : List P2) : List ℚ :=
  (List.range (points.length - 1)).map fun i =>
    let c1i := (coeffs1 points).getD i 0
    let slope := (slopes points).getD i 0
    let invDx := 1 / (deltaXs points).getD i 0
    let common := c1i + (coeffs1 points).getD (i + 1) 0 - 2 * slope
    common * invDx * invDx

/-- Binary search of the Spline::Monotone closure (src/unnamed/part_000 lines
126-137).  `Sum.inl y` models the exact-match early return of points[mid].y;
`Sum.inr high` models leaving the while loop with the final value of `high`.
The C++ decrement `high = mid - 1` underflows the unsigned index when
`mid = 0`, after which the loop reads far out of bounds (undefined
behavior); that path — unreachable when the closure's range guards already
handled x ≤ x₀ — is modeled as `none`, as is fuel exhaustion (the search
halves the range, so the fuel passed below never runs out). -/
def searchLoop (points : List P2) (x : ℚ) : ℕ → ℕ → ℕ → Option (ℚ ⊕ ℕ)
  | 0, _, _ => none
  | fuel + 1, low, high =>
    if low ≤ high then
      let mid := (low + high) / 2
      let xHere := (points.getD mid dflt).x
      if xHere < x then searchLoop points x fuel (mid + 1) high
      else if xHere > x then
        if mid = 0 then none
        else searchLoop points x fuel low (mid - 1)
      else some (Sum.inl (points.getD mid dflt).y)
    else some (Sum.inr high)

/-- Body of the evaluation closure returned by Spline::Monotone
(src/unnamed/part_000 lines 121-145): range guards, then binary search for
the segment (with the exact-match short circuit `return points[mid].y`), then
the cubic `points[i].y + c1[i]·d + c2[i]·d² + c3[i]·d³` with
`i = (high > 0) ? high : 0` and `d = x - points[i].x`.  The final `0` arm
corresponds to the undefined (unreachable) outcomes of the search. -/
def MonotoneEval (points : List P2) (x : ℚ) : ℚ :=
  if x ≤ (points.headD dflt).x then (points.headD dflt).y
  else if x ≥ (points.getLastD dflt).x then (points.getLastD dflt).y
  else
    match searchLoop points x (points.length + 1) 0 (points.length - 1 - 1) with
    | some (Sum.inl y) => y
    | some (Sum.inr high) =>
      let i := if high > 0 then high else 0
      let diff := x - (points.getD i dflt).x
      let diffSq := diff * diff
      (points.getD i dflt).y + (coeffs1 points).getD i 0 * diff +
        (coeffs2 points).getD i 0 * diffSq +
        (coeffs3 points).getD i 0 * diff * diffSq
    | none => 0

/-- Model of Spline::Monotone (src/unnamed/part_000 lines 74-146).  The
construction precomputes the coefficient vectors, then returns the evaluation
closure.  With fewer than two control points the C++ constructor reads
slopes[0] and slopes.back() of an empty vector and runs its interior loop up
to count - 1, which underflows to SIZE_MAX — undefined behavior — so the
model returns `none` there; otherwise `some` of the closure. -/
def Monotone (points : List P2) : Option (ℚ → ℚ) :=
  if points.length < 2 then none else some (MonotoneEval points)

/-- In a strictly x-sorted chain the last element lies strictly above the
starting point. -/
theorem chain_lt_getLastD (l : List P2) :
    ∀ a : P2, List.Chain (fun p q : P2 => p.x < q.x) a l → l ≠ [] →
      a.x < (l.getLastD a).x := by
  induction l with
  | nil => intro a _ h; exact absurd rfl h
  | cons b t ih =>
    intro a hch _
    rw [List.getLastD_cons]
    rcases List.chain_cons.mp hch with ⟨hab, hbt⟩
    rcases eq_or_ne t [] with ht | ht
    · subst ht; simpa using hab
    · exact lt_trans hab (ih b hbt ht)

end Spline

/-- C8: for every spline variant built from a non-empty strictly x-sorted
control point list, evaluation clamps flat outside the control range: at or
below the first control x it returns the first y, at or above the last
control x it returns the last y.  (For Monotone the closure exists only when
at least two points are supplied — with fewer the C++ construction is
undefined behavior, modeled as `none` — so the Monotone conjunct is stated
for the successfully built closure.) -/
theorem spline_flat_clamp (points : List Spline.P2) (x : ℚ)
    (hne : points ≠ [])
    (hsort : List.Chain' (fun p q : Spline.P2 => p.x < q.x) points) :
    (x ≤ (points.headD Spline.dflt).x →
      Spline.Linear points x = (points.headD Spline.dflt).y ∧
      Spline.StepBefore points x = (points.headD Spline.dflt).y ∧
      Spline.StepAfter points x = (points.headD Spline.dflt).y ∧
      ∀ f, Spline.Monotone points = some f → f x = (points.headD Spline.dflt).y) ∧
    ((points.getLastD Spline.dflt).x ≤ x →
      Spline.Linear points x = (points.getLastD Spline.dflt).y ∧
      Spline.StepBefore points x = (points.getLastD Spline.dflt).y ∧
      Spline.StepAfter points x = (points.getLastD Spline.dflt).y ∧
      ∀ f, Spline.Monotone points = some f → f x = (points.getLastD Spline.dflt).y) := by
  constructor
  · intro hx0
    refine ⟨?_, ?_, ?_, ?_⟩
    · unfold Spline.Linear; rw [if_pos hx0]
    · unfold Spline.StepBefore; rw [if_pos hx0]
    · unfold Spline.StepAfter; rw [if_pos hx0]
    · intro f hf
      by_cases hlen : points.length < 2
      · rw [Spline.Monotone, if_pos hlen] at hf; exact Option.noConfusion hf
      · rw [Spline.Monotone, if_neg hlen] at hf
        rw [← Option.some.inj hf]
        unfold Spline.MonotoneEval
        rw [if_pos hx0]
  · intro hxl
    by_cases hx0 : x ≤ (points.headD Spline.dflt).x
    · have hsingle : points.headD Spline.dflt = points.getLastD Spline.dflt := by
        cases points with
        | nil => exact absurd rfl hne
        | cons p rest =>
          rcases eq_or_ne rest [] with hrest | hrest
          · subst hrest; simp
          · exfalso
            have hch : List.Chain (fun p q : Spline.P2 => p.x < q.x) p rest := hsort
            have hlt := Spline.chain_lt_getLastD rest p hch hrest
            simp only [List.headD_cons, List.getLastD_cons] at hx0 hxl
            linarith
      rw [← hsingle]
      refine ⟨?_, ?_, ?_, ?_⟩
      · unfold Spline.Linear; rw [if_pos hx0]
      · unfold Spline.StepBefore; rw [if_pos hx0]
      · unfold Spline.StepAfter; rw [if_pos hx0]
      · intro f hf
        by_cases hlen : points.length < 2
        · rw [Spline.Monotone, if_pos hlen] at hf; exact Option.noConfusion hf
        · rw [Spline.Monotone, if_neg hlen] at hf
          rw [← Option.some.inj hf]
          unfold Spline.MonotoneEval
          rw [if_pos hx0]
    · refine ⟨?_, ?_, ?_, ?_⟩
      · unfold Spline.Linear; rw [if_neg hx0, if_pos hxl]
      · unfold Spline.StepBefore; rw [if_neg hx0, if_pos hxl]
      · unfold Spline.StepAfter; rw [if_neg hx0, if_pos hxl]
      · intro f hf
        by_cases hlen : points.length < 2
        · rw [Spline.Monotone, if_pos hlen] at hf; exact Option.noConfusion hf
        · rw [Spline.Monotone, if_neg hlen] at hf
          rw [← Option.some.inj hf]
          unfold Spline.MonotoneEval
          rw [if_neg hx0, if_pos hxl]

/-- Witness for C8 on the two-point control sequence (0,0), (1,1) evaluated
at x = 2, above the control range: every variant returns the last y, 1. -/
theorem spline_flat_clamp_witness :
    Spline.Linear [Spline.P2.mk 0 0, Spline.P2.mk 1 1] 2 = 1 ∧
    Spline.StepBefore [Spline.P2.mk 0 0, Spline.P2.mk 1 1] 2 = 1 ∧
    Spline.StepAfter [Spline.P2.mk 0 0, Spline.P2.mk 1 1] 2 = 1 ∧
    Spline.MonotoneEval [Spline.P2.mk 0 0, Spline.P2.mk 1 1] 2 = 1 := by
  have hne : ([Spline.P2.mk 0 0, Spline.P2.mk 1 1] : List Spline.P2) ≠ [] := by
    exact List.cons_ne_nil _ _
  have hsort : List.Chain' (fun p q : Spline.P2 => p.x < q.x)
      [Spline.P2.mk 0 0, Spline.P2.mk 1 1] :=
    List.Chain.cons (by norm_num) List.Chain.nil
  have hxl : (([Spline.P2.mk 0 0, Spline.P2.mk 1 1] : List Spline.P2).getLastD
      Spline.dflt).x ≤ 2 := by
    norm_num [List.getLastD_cons]
  have h := (spline_flat_clamp [Spline.P2.mk 0 0, Spline.P2.mk 1 1] 2 hne hsort).2 hxl
  have hmono : Spline.Monotone [Spline.P2.mk 0 0, Spline.P2.mk 1 1] =
      some (Spline.MonotoneEval [Spline.P2.mk 0 0, Spline.P2.mk 1 1]) := by
    rw [Spline.Monotone, if_neg]
    norm_num
  simp only [List.getLastD_cons, List.getLastD_nil] at h
  exact ⟨h.1, h.2.1, h.2.2.1, h.2.2.2 _ hmono⟩

/-- Events are modeled as naturals (`enum class Event : unsigned int`,
src/DecisionEngine.h line 44). -/
abbrev Event := ℕ

/-- Ordered-set insertion, modeling std::set<Event>::insert: the backing
list is kept strictly increasing (the iteration order of std::set) and
inserting a present element changes nothing. -/
def setInsert (e : Event) : List Event → List Event
  | [] => [e]
  | x :: xs =>
    if e < x then e :: x :: xs
    else if e = x then x :: xs
    else x :: setInsert e xs

/-- Keep-before relation fed to the stable sort of rule buckets, from the
std::stable_sort comparator `x.getUtility() > y.getUtility()`
(src/DecisionEngine.h sort_decisions): x may stay before y exactly when the
comparator does not order y strictly before x, i.e. when
`y.getUtility() <= x.getUtility()`; ties keep their original order, as with
std::stable_sort. -/
def decisionLe (x y : Decision) : Bool :=
  decide (y.utility.toRat ≤ x.utility.toRat)

/-- The same keep-before relation on active_rules entries, from the
comparator of sort_active_decisions (src/DecisionEngine.h lines 321-326). -/
def ruleLe (x y : Event × Decision) : Bool :=
  decide (y.2.utility.toRat ≤ x.2.utility.toRat)

/-- State of class DecisionEngine (protected members, src/DecisionEngine.h
lines 284-287).  `rules` models the std::map<Event, std::vector<Decision>>
(absent keys read as empty buckets, matching operator[]); `active_rules` the
candidate vector of (event, decision) tuples; `active_events` and
`updated_events` the two std::set<Event>, as strictly increasing lists. -/
structure DecisionEngine where
  rules : Event → List Decision
  active_rules : List (Event × Decision)
  active_events : List Event
  updated_events : List Event

/-- The default-constructed engine. -/
def DecisionEngine.empty : DecisionEngine :=
  DecisionEngine.mk (fun _ => []) [] [] []

/-- Models DecisionEngine::sort_active_decisions (src/DecisionEngine.h lines
321-326): stable sort of active_rules by descending utility.
List.mergeSort is a stable sort, like std::stable_sort. -/
def DecisionEngine.sort_active_decisions (eng : DecisionEngine) : DecisionEngine :=
  DecisionEngine.mk eng.rules (eng.active_rules.mergeSort ruleLe)
    eng.active_events eng.updated_events

/-- One iteration of the loop of DecisionEngine::sort_decisions
(src/DecisionEngine.h lines 300-314): stable-sort the marked event's bucket;
once any marked event has been found active, re-sort active_rules in this
and every later iteration (re-sorting a sorted list changes nothing, so only
the first re-sort is observable). -/
def DecisionEngine.sort_decisions_step (acc : DecisionEngine × Bool) (e : Event) : DecisionEngine × Bool :=
  let eng := acc.1
  let eng2 := DecisionEngine.mk
    (fun e' => if e' = e then (eng.rules e).mergeSort decisionLe else eng.rules e')
    eng.active_rules eng.active_events eng.updated_events
  let doSort := acc.2 || decide (e ∈ eng2.active_events)
  let eng3 := if doSort then eng2.sort_active_decisions else eng2
  (eng3, doSort)

/-- Models DecisionEngine::sort_decisions (src/DecisionEngine.h lines
300-314): iterate over the marked events in std::set order, then clear the
marked set. -/
def DecisionEngine.sort_decisions (eng : DecisionEngine) : DecisionEngine :=
  let res := eng.updated_events.foldl DecisionEngine.sort_decisions_step (eng, false)
  DecisionEngine.mk res.1.rules res.1.active_rules res.1.active_events []

/-- The pending-sort flush performed at the top of raiseEvent and
getBestDecision: `if (!updated_events.empty()) sort_decisions();`. -/
def DecisionEngine.flush (eng : DecisionEngine) : DecisionEngine :=
  if eng.updated_events = [] then eng else eng.sort_decisions

/-- Models DecisionEngine::addDecision (src/DecisionEngine.h lines 111-122):
for each listed event, append the new Decision to that event's bucket and
mark the event as updated.  There is no validation of any argument — in
particular the considerations list may be empty — and active_rules,
active_events are never touched.  (The Action argument takes no part in the
pure model.) -/
def DecisionEngine.addDecision (eng : DecisionEngine) (n d : String) (u : UtilityScore)
    (e : List Event) (c : List Consideration) : DecisionEngine :=
  e.foldl (fun acc ev =>
    DecisionEngine.mk
      (fun e' => if e' = ev then acc.rules ev ++ [Decision.mk n d u c] else acc.rules e')
      acc.active_rules acc.active_events (setInsert ev acc.updated_events)) eng

/-- Models DecisionEngine::raiseEvent (src/DecisionEngine.h lines 131-145):
flush pending sorts when any event is marked; then, if the event is not
already active, append its bucket to active_rules (as copies, in bucket
order), insert the event into active_events, and stable-sort active_rules by
descending utility. -/
def DecisionEngine.raiseEvent (eng : DecisionEngine) (e : Event) : DecisionEngine :=
  let eng1 := eng.flush
  if e ∈ eng1.active_events then eng1
  else
    let eng2 := DecisionEngine.mk eng1.rules
      (eng1.active_rules ++ (eng1.rules e).map (fun d => (e, d)))
      (setInsert e eng1.active_events) eng1.updated_events
    eng2.sort_active_decisions

/-- Selection loop of DecisionEngine::getBestDecision (src/DecisionEngine.h
lines 211-246), carrying the running pair (highest_score, best candidate):
break on `utility < highest_score || utility == 0` before scoring the
candidate; on a strictly larger score update the pair, and break right after
an update whose score saturates its tier (`score == utility`). -/
def selectLoop : ℚ → Decision → List (Event × Decision) → ℚ × Decision
  | highest, best, [] => (highest, best)
  | highest, best, r :: rest =>
    let utility := r.2.utility.toRat
    if utility < highest ∨ utility = 0 then (highest, best)
    else
      let score := r.2.computeScore
      if score > highest then
        if score = utility then (score, r.2) else selectLoop score r.2 rest
      else selectLoop highest best rest

/-- Models DecisionEngine::getBestDecision (src/DecisionEngine.h lines
197-253): flush pending sorts, throw on an empty candidate list, run the
selection loop from highest_score = 0 with best_index = 0, throw when the
resulting best score is still zero, else return the best candidate.  The
only state mutation of the C++ method is the flush, exposed here as
`DecisionEngine.flush`. -/
def DecisionEngine.getBestDecision (eng : DecisionEngine) : Except String Decision :=
  match (eng.flush).active_rules with
  | [] => Except.error ("Empty active rule set")
  | r :: rest =>
    let res := selectLoop 0 r.2 (r :: rest)
    if res.1 = 0 then Except.error ("No rule was activated")
    else Except.ok res.2

/-- Spec-side naive scan loop ("the naive left-to-right scan of active_rules
that keeps the first candidate attaining the maximum composite score"):
every candidate is scored, and the kept candidate is replaced only by a
strictly larger score, so ties go to the earliest position. -/
def naiveLoop : ℚ → Decision → List (Event × Decision) → ℚ × Decision
  | highest, best, [] => (highest, best)
  | highest, best, r :: rest =>
    if r.2.computeScore > highest then naiveLoop r.2.computeScore r.2 rest
    else naiveLoop highest best rest

/-- Spec-side naive best: scan the whole candidate list from its head. -/
def naiveBest : List (Event × Decision) → Option Decision
  | [] => none
  | r :: rest => some (naiveLoop 0 r.2 (r :: rest)).2

/-- The candidate list is sorted non-increasingly by tier. -/
def SortedByTier (l : List (Event × Decision)) : Prop :=
  List.Pairwise (fun a b : Event × Decision => b.2.utility.toRat ≤ a.2.utility.toRat) l

/-- Every Decision of the model scores within [0, its tier]: the clip inside
Consideration::computeScore puts every factor's score in [0, 1]. -/
theorem rule_score_bounds (d : Decision) :
    0 ≤ d.computeScore ∧ d.computeScore ≤ d.utility.toRat :=
  decision_score_bounds_aux d (fun c _ => consideration_score_mem c)

/-- The naive scan keeps its running pair unchanged over candidates that
cannot strictly beat the running score. -/
theorem naiveLoop_const :
    ∀ (l : List (Event × Decision)) (h : ℚ) (b : Decision),
      (∀ r ∈ l, r.2.computeScore ≤ h) → naiveLoop h b l = (h, b) := by
  intro l
  induction l with
  | nil => intro h b _; rfl
  | cons r rest ih =>
    intro h b hle
    simp only [naiveLoop]
    rw [if_neg (not_lt.mpr (hle r (List.mem_cons_self r rest)))]
    exact ih h b (fun r' hr' => hle r' (List.mem_cons_of_mem r hr'))

/-- Core refinement fact: over a tier-sorted candidate list the pruned
selection loop computes exactly the same pair as the naive scan — each of
the three breaks only discards candidates whose composite score cannot
strictly exceed the running best. -/
theorem selectLoop_eq_naiveLoop :
    ∀ (l : List (Event × Decision)) (h : ℚ) (b : Decision),
      SortedByTier l → 0 ≤ h → selectLoop h b l = naiveLoop h b l := by
  intro l
  induction l with
  | nil => intro h b _ _; rfl
  | cons r rest ih =>
    intro h b hsort hh
    rcases List.pairwise_cons.mp hsort with ⟨hr, hrest⟩
    have hbounds := rule_score_bounds r.2
    simp only [selectLoop, naiveLoop]
    by_cases hbr : r.2.utility.toRat < h ∨ r.2.utility.toRat = 0
    · rw [if_pos hbr]
      have hsle : r.2.computeScore ≤ h := by
        rcases hbr with hlt | h0
        · linarith [hbounds.2]
        · have : r.2.computeScore ≤ 0 := h0 ▸ hbounds.2
          linarith
      rw [if_neg (not_lt.mpr hsle)]
      have hrests : ∀ r' ∈ rest, r'.2.computeScore ≤ h := by
        intro r' hr'
        have hb' := rule_score_bounds r'.2
        have htier := hr r' hr'
        rcases hbr with hlt | h0
        · linarith [hb'.2]
        · have : r'.2.utility.toRat ≤ 0 := h0 ▸ htier
          linarith [hb'.2]
      rw [naiveLoop_const rest h b hrests]
    · rw [if_neg hbr]
      push_neg at hbr
      by_cases hsc : r.2.computeScore > h
      · rw [if_pos hsc, if_pos hsc]
        by_cases hsat : r.2.computeScore = r.2.utility.toRat
        · rw [if_pos hsat]
          have hrests : ∀ r' ∈ rest, r'.2.computeScore ≤ r.2.computeScore := by
            intro r' hr'
            have hb' := rule_score_bounds r'.2
            have htier := hr r' hr'
            rw [hsat]
            linarith [hb'.2]
          rw [naiveLoop_const rest r.2.computeScore r.2 hrests]
        · rw [if_neg hsat]
          exact ih r.2.computeScore r.2 hrest (by linarith)
      · rw [if_neg hsc, if_neg hsc]
        exact ih h b hrest hh

/-- The naive scan's running score never decreases. -/
theorem naiveLoop_fst_ge :
    ∀ (l : List (Event × Decision)) (h : ℚ) (b : Decision),
      h ≤ (naiveLoop h b l).1 := by
  intro l
  induction l with
  | nil => intro h b; exact le_refl h
  | cons r rest ih =>
    intro h b
    simp only [naiveLoop]
    split_ifs with hgt
    · exact le_trans (le_of_lt hgt) (ih _ _)
    · exact ih _ _

/-- The naive scan ends on score zero exactly when it started there and all
scanned candidates score zero. -/
theorem naiveLoop_fst_zero_iff :
    ∀ (l : List (Event × Decision)) (h : ℚ) (b : Decision), 0 ≤ h →
      ((naiveLoop h b l).1 = 0 ↔ h = 0 ∧ ∀ r ∈ l, r.2.computeScore = 0) := by
  intro l
  induction l with
  | nil => intro h b hh; simp [naiveLoop]
  | cons r rest ih =>
    intro h b hh
    simp only [naiveLoop]
    split_ifs with hgt
    · have hs0 : 0 < r.2.computeScore := lt_of_le_of_lt hh hgt
      rw [ih _ r.2 (le_of_lt hs0)]
      constructor
      · rintro ⟨hz, _⟩; exact absurd hz (ne_of_gt hs0)
      · rintro ⟨_, hall⟩
        exact absurd (hall r (List.mem_cons_self r rest)) (ne_of_gt hs0)
    · rw [ih _ b hh]
      have hsle : r.2.computeScore ≤ h := not_lt.mp hgt
      constructor
      · rintro ⟨h0, hall⟩
        refine ⟨h0, ?_⟩
        intro r' hr'
        rcases List.mem_cons.mp hr' with rfl | hmem
        · have hnn := (rule_score_bounds r'.2).1
          subst h0
          linarith
        · exact hall r' hmem
      · rintro ⟨h0, hall⟩
        exact ⟨h0, fun r' hr' => hall r' (List.mem_cons_of_mem r hr')⟩

/-- The candidate kept by the naive scan is either the seed or one of the
scanned candidates. -/
theorem naiveLoop_snd_mem :
    ∀ (l : List (Event × Decision)) (h : ℚ) (b : Decision),
      (naiveLoop h b l).2 = b ∨ (naiveLoop h b l).2 ∈ l.map Prod.snd := by
  intro l
  induction l with
  | nil => intro h b; exact Or.inl rfl
  | cons r rest ih =>
    intro h b
    simp only [naiveLoop, List.map_cons]
    split_ifs with hgt
    · rcases ih r.2.computeScore r.2 with heq | hmem
      · exact Or.inr (by rw [heq]; exact List.mem_cons_self _ _)
      · exact Or.inr (List.mem_cons_of_mem _ hmem)
    · rcases ih h b with heq | hmem
      · exact Or.inl heq
      · exact Or.inr (List.mem_cons_of_mem _ hmem)

/-- One sort_decisions iteration leaves active_rules alone or stable-sorts
it in place. -/
theorem sort_decisions_step_active (acc : DecisionEngine × Bool) (e : Event) :
    (DecisionEngine.sort_decisions_step acc e).1.active_rules = acc.1.active_rules ∨
    (DecisionEngine.sort_decisions_step acc e).1.active_rules =
      acc.1.active_rules.mergeSort ruleLe := by
  unfold DecisionEngine.sort_decisions_step DecisionEngine.sort_active_decisions
  simp only
  split
  · exact Or.inr rfl
  · exact Or.inl rfl

/-- The sort_decisions loop only ever permutes active_rules (each iteration
either leaves it alone or stable-sorts it). -/
theorem sort_decisions_fold_active_perm :
    ∀ (es : List Event) (acc : DecisionEngine × Bool),
      ((es.foldl DecisionEngine.sort_decisions_step acc).1.active_rules).Perm
        acc.1.active_rules := by
  intro es
  induction es with
  | nil => intro acc; exact List.Perm.refl _
  | cons e rest ih =>
    intro acc
    rw [List.foldl_cons]
    refine (ih (DecisionEngine.sort_decisions_step acc e)).trans ?_
    rcases sort_decisions_step_active acc e with heq | heq
    · rw [heq]
    · rw [heq]; exact List.mergeSort_perm _ _

/-- The flush never changes the contents of the candidate list, only
(possibly) its order. -/
theorem flush_active_perm (eng : DecisionEngine) :
    ((eng.flush).active_rules).Perm eng.active_rules := by
  unfold DecisionEngine.flush
  split_ifs with h
  · exact List.Perm.refl _
  · unfold DecisionEngine.sort_decisions
    simp only
    exact sort_decisions_fold_active_perm eng.updated_events (eng, false)

/-- The keep-before relation on active_rules entries is transitive. -/
theorem ruleLe_trans (a b c : Event × Decision)
    (h1 : ruleLe a b = true) (h2 : ruleLe b c = true) : ruleLe a c = true := by
  simp only [ruleLe, decide_eq_true_eq] at h1 h2 ⊢
  linarith

/-- The keep-before relation on active_rules entries is total. -/
theorem ruleLe_total (a b : Event × Decision) :
    (ruleLe a b || ruleLe b a) = true := by
  simp only [ruleLe, Bool.or_eq_true, decide_eq_true_eq]
  exact le_total _ _

/-- Output of the stable sort on active_rules is tier-sorted. -/
theorem sortedByTier_mergeSort (l : List (Event × Decision)) :
    SortedByTier (l.mergeSort ruleLe) := by
  have hps := List.sorted_mergeSort ruleLe_trans ruleLe_total l
  exact hps.imp (fun hab => of_decide_eq_true hab)

/-- The sort_decisions loop leaves active_rules alone or replaces it by a
stable sort of some list. -/
theorem sort_decisions_fold_active_cases :
    ∀ (es : List Event) (acc : DecisionEngine × Bool),
      (es.foldl DecisionEngine.sort_decisions_step acc).1.active_rules =
          acc.1.active_rules ∨
        ∃ l : List (Event × Decision),
          (es.foldl DecisionEngine.sort_decisions_step acc).1.active_rules =
            l.mergeSort ruleLe := by
  intro es
  induction es with
  | nil => intro acc; exact Or.inl rfl
  | cons e rest ih =>
    intro acc
    rw [List.foldl_cons]
    rcases ih (DecisionEngine.sort_decisions_step acc e) with heq | ⟨l, hl⟩
    · rw [heq]
      rcases sort_decisions_step_active acc e with h2 | h2
      · exact Or.inl h2
      · exact Or.inr ⟨acc.1.active_rules, h2⟩
    · exact Or.inr ⟨l, hl⟩

/-- Flushing preserves tier-sortedness of active_rules. -/
theorem flush_sorted (eng : DecisionEngine) (h : SortedByTier eng.active_rules) :
    SortedByTier (eng.flush).active_rules := by
  unfold DecisionEngine.flush
  split_ifs with hup
  · exact h
  · unfold DecisionEngine.sort_decisions
    simp only
    rcases sort_decisions_fold_active_cases eng.updated_events (eng, false) with
      heq | ⟨l, hl⟩
    · rw [heq]; exact h
    · rw [hl]; exact sortedByTier_mergeSort l

/-- addDecision never touches active_rules. -/
theorem addDecision_active_rules (eng : DecisionEngine) (n d : String)
    (u : UtilityScore) (e : List Event) (c : List Consideration) :
    (eng.addDecision n d u e c).active_rules = eng.active_rules := by
  unfold DecisionEngine.addDecision
  induction e generalizing eng with
  | nil => rfl
  | cons ev rest ih => rw [List.foldl_cons]; exact ih _

/-- addDecision never touches active_events. -/
theorem addDecision_active_events (eng : DecisionEngine) (n d : String)
    (u : UtilityScore) (e : List Event) (c : List Consideration) :
    (eng.addDecision n d u e c).active_events = eng.active_events := by
  unfold DecisionEngine.addDecision
  induction e generalizing eng with
  | nil => rfl
  | cons ev rest ih => rw [List.foldl_cons]; exact ih _

/-- raiseEvent leaves active_rules tier-sorted. -/
theorem raiseEvent_sorted (eng : DecisionEngine) (e : Event)
    (h : SortedByTier eng.active_rules) :
    SortedByTier (eng.raiseEvent e).active_rules := by
  unfold DecisionEngine.raiseEvent
  simp only
  split_ifs with hmem
  · exact flush_sorted eng h
  · exact sortedByTier_mergeSort _

/-- getBestDecision on an engine whose flushed candidate list is empty. -/
theorem getBestDecision_nil (eng : DecisionEngine)
    (hl : (eng.flush).active_rules = []) :
    eng.getBestDecision = Except.error ("Empty active rule set") := by
  unfold DecisionEngine.getBestDecision
  rw [hl]

/-- getBestDecision on an engine whose flushed candidate list is non-empty:
the result of the selection loop decides between failure and success. -/
theorem getBestDecision_cons (eng : DecisionEngine) (r : Event × Decision)
    (rest : List (Event × Decision))
    (hl : (eng.flush).active_rules = r :: rest) :
    eng.getBestDecision =
      (if (selectLoop 0 r.2 (r :: rest)).1 = 0 then
        Except.error ("No rule was activated")
      else Except.ok (selectLoop 0 r.2 (r :: rest)).2) := by
  unfold DecisionEngine.getBestDecision
  rw [hl]

/-- C1: on an engine whose (flushed) active_rules list is tier-sorted
non-increasingly — with every consideration score in [0, 1] and evaluation
deterministic, both facts the rational model builds in — whenever
getBestDecision returns a Decision, it is exactly the one selected by the
naive left-to-right scan that keeps the first candidate attaining the
maximum composite score: none of the three pruning breaks changes the
selected Decision, and exact-score ties go to the earliest position. -/
theorem getBestDecision_eq_naive (eng : DecisionEngine)
    (hsort : SortedByTier (eng.flush).active_rules) (d : Decision)
    (hok : eng.getBestDecision = Except.ok d) :
    naiveBest (eng.flush).active_rules = some d := by
  cases hl : (eng.flush).active_rules with
  | nil =>
    rw [getBestDecision_nil eng hl] at hok
    exact Except.noConfusion hok
  | cons r rest =>
    rw [getBestDecision_cons eng r rest hl] at hok
    rw [hl] at hsort
    rw [selectLoop_eq_naiveLoop (r :: rest) 0 r.2 hsort (le_refl 0)] at hok
    by_cases h0 : (naiveLoop 0 r.2 (r :: rest)).1 = 0
    · rw [if_pos h0] at hok
      exact Except.noConfusion hok
    · rw [if_neg h0] at hok
      show some (naiveLoop 0 r.2 (r :: rest)).2 = some d
      rw [Except.ok.inj hok]

/-- C4: getBestDecision fails with `Empty active rule set` exactly when the
flushed candidate list is empty; on a non-empty (tier-sorted) candidate list
it fails with `No rule was activated` exactly when every candidate's
composite score is zero, and otherwise returns one of the candidates; the
candidate list's contents are never modified (the flush only permutes
them). -/
theorem getBestDecision_error_conditions (eng : DecisionEngine)
    (hsort : SortedByTier (eng.flush).active_rules) :
    ((eng.flush).active_rules).Perm eng.active_rules ∧
    (eng.getBestDecision = Except.error ("Empty active rule set") ↔
      (eng.flush).active_rules = []) ∧
    ((eng.flush).active_rules ≠ [] →
      (eng.getBestDecision = Except.error ("No rule was activated") ↔
        ∀ r ∈ (eng.flush).active_rules, r.2.computeScore = 0)) ∧
    ((eng.flush).active_rules ≠ [] →
      (∃ r ∈ (eng.flush).active_rules, r.2.computeScore ≠ 0) →
      ∃ d, eng.getBestDecision = Except.ok d ∧
        d ∈ ((eng.flush).active_rules).map Prod.snd) := by
  refine ⟨flush_active_perm eng, ?_, ?_, ?_⟩
  · cases hl : (eng.flush).active_rules with
    | nil => simp [getBestDecision_nil eng hl]
    | cons r rest =>
      rw [getBestDecision_cons eng r rest hl]
      constructor
      · intro hcontra
        by_cases h0 : (selectLoop 0 r.2 (r :: rest)).1 = 0
        · rw [if_pos h0] at hcontra
          have hmsg := Except.error.inj hcontra
          simp at hmsg
        · rw [if_neg h0] at hcontra
          exact Except.noConfusion hcontra
      · intro hcontra; exact List.noConfusion hcontra
  · intro hne
    cases hl : (eng.flush).active_rules with
    | nil => exact absurd hl hne
    | cons r rest =>
      rw [getBestDecision_cons eng r rest hl]
      rw [hl] at hsort
      rw [selectLoop_eq_naiveLoop (r :: rest) 0 r.2 hsort (le_refl 0)]
      have hiff := naiveLoop_fst_zero_iff (r :: rest) 0 r.2 (le_refl 0)
      by_cases hz : (naiveLoop 0 r.2 (r :: rest)).1 = 0
      · rw [if_pos hz]
        constructor
        · intro _; exact (hiff.mp hz).2
        · intro _; rfl
      · rw [if_neg hz]
        constructor
        · intro hcontra; exact Except.noConfusion hcontra
        · intro hall
          exact absurd (hiff.mpr ⟨rfl, hall⟩) hz
  · intro hne hex
    cases hl : (eng.flush).active_rules with
    | nil => exact absurd hl hne
    | cons r rest =>
      rw [getBestDecision_cons eng r rest hl]
      rw [hl] at hsort hex
      rw [selectLoop_eq_naiveLoop (r :: rest) 0 r.2 hsort (le_refl 0)]
      have hz : ¬ (naiveLoop 0 r.2 (r :: rest)).1 = 0 := by
        rw [naiveLoop_fst_zero_iff (r :: rest) 0 r.2 (le_refl 0)]
        rintro ⟨-, hall⟩
        obtain ⟨r', hr', hne'⟩ := hex
        exact hne' (hall r' hr')
      rw [if_neg hz]
      refine ⟨(naiveLoop 0 r.2 (r :: rest)).2, rfl, ?_⟩
      rcases naiveLoop_snd_mem (r :: rest) 0 r.2 with heq | hmem
      · rw [heq, List.map_cons]; exact List.mem_cons_self _ _
      · exact hmem

/-- One engine operation for the add/raise sequences of C5. -/
inductive EngOp : Type
  | add (n d : String) (u : UtilityScore) (e : List Event) (c : List Consideration)
  | raise (e : Event)

/-- Apply one operation to an engine. -/
def applyOp (eng : DecisionEngine) : EngOp → DecisionEngine
  | .add n d u e c => eng.addDecision n d u e c
  | .raise e => eng.raiseEvent e

/-- Run a sequence of operations from the default-constructed engine. -/
def runOps (ops : List EngOp) : DecisionEngine :=
  ops.foldl applyOp DecisionEngine.empty

/-- Tier-sortedness of active_rules is preserved by every operation. -/
theorem foldl_applyOp_sorted :
    ∀ (ops : List EngOp) (eng : DecisionEngine), SortedByTier eng.active_rules →
      SortedByTier (ops.foldl applyOp eng).active_rules := by
  intro ops
  induction ops with
  | nil => intro eng h; exact h
  | cons op rest ih =>
    intro eng h
    rw [List.foldl_cons]
    apply ih
    cases op with
    | add n d u e c =>
      simp only [applyOp]
      rw [addDecision_active_rules]
      exact h
    | raise e => exact raiseEvent_sorted eng e h

/-- C5: after any sequence of addDecision and raiseEvent operations from the
empty engine, active_rules is sorted non-increasingly by tier; addDecision
never touches active_rules; and raiseEvent on a not-yet-active event appends
the raised event's bucket and then re-sorts active_rules with the stable
sort (List.mergeSort models std::stable_sort, so tier ties keep their
relative order). -/
theorem active_rules_sorted_invariant (ops : List EngOp) :
    SortedByTier (runOps ops).active_rules ∧
    (∀ (eng : DecisionEngine) (n d : String) (u : UtilityScore) (e : List Event)
        (c : List Consideration),
      (eng.addDecision n d u e c).active_rules = eng.active_rules) ∧
    (∀ (eng : DecisionEngine) (e : Event), e ∉ (eng.flush).active_events →
      (eng.raiseEvent e).active_rules =
        ((eng.flush).active_rules ++
          ((eng.flush).rules e).map (fun dd => (e, dd))).mergeSort ruleLe) := by
  refine ⟨?_, ?_, ?_⟩
  · unfold runOps
    exact foldl_applyOp_sorted ops DecisionEngine.empty List.Pairwise.nil
  · intro eng n d u e c
    exact addDecision_active_rules eng n d u e c
  · intro eng e hmem
    unfold DecisionEngine.raiseEvent
    simp only
    rw [if_neg hmem]
    rfl

/-- Witness for C5: one raise of event 0 from the empty engine; the
invariant holds and the raise equation applies (0 is not active in the
flushed empty engine). -/
theorem active_rules_sorted_invariant_witness :
    SortedByTier (runOps [EngOp.raise 0]).active_rules ∧
    (DecisionEngine.empty.raiseEvent 0).active_rules =
      ((DecisionEngine.empty.flush).active_rules ++
        ((DecisionEngine.empty.flush).rules 0).map (fun dd => (0, dd))).mergeSort ruleLe := by
  refine ⟨(active_rules_sorted_invariant [EngOp.raise 0]).1,
    (active_rules_sorted_invariant []).2.2 DecisionEngine.empty 0 ?_⟩
  simp [DecisionEngine.flush, DecisionEngine.empty]

/-- C10: addDecision with an empty events list leaves the entire engine
state unchanged — the fold over the events has nothing to do, so rules,
active_rules, active_events and updated_events are exactly as before the
call; the Decision is registered nowhere and no event is marked for
re-sorting. -/
theorem addDecision_no_events (eng : DecisionEngine) (n d : String) (u : UtilityScore)
    (c : List Consideration) :
    eng.addDecision n d u [] c = eng := rfl

/-- Registration equation for addDecision: an event's bucket gains one copy
of the new Decision per occurrence of the event in the argument list, and is
otherwise untouched. -/
theorem addDecision_rules :
    ∀ (e : List Event) (eng : DecisionEngine) (n d : String) (u : UtilityScore)
      (c : List Consideration) (ev : Event),
      (eng.addDecision n d u e c).rules ev =
        eng.rules ev ++ List.replicate (e.count ev) (Decision.mk n d u c) := by
  intro e
  induction e with
  | nil => intro eng n d u c ev; simp [DecisionEngine.addDecision]
  | cons ev' rest ih =>
    intro eng n d u c ev
    have hstep : eng.addDecision n d u (ev' :: rest) c =
        (DecisionEngine.mk
          (fun e' => if e' = ev' then eng.rules ev' ++ [Decision.mk n d u c]
            else eng.rules e')
          eng.active_rules eng.active_events
          (setInsert ev' eng.updated_events)).addDecision n d u rest c := rfl
    rw [hstep, ih]
    simp only
    by_cases hev : ev = ev'
    · subst hev
      rw [if_pos rfl, List.count_cons_self, List.replicate_succ,
        List.append_assoc, List.singleton_append]
    · rw [if_neg hev, List.count_cons_of_ne hev]

/-- C6 (amended): addDecision performs no validation and has no failure
path: for every considerations list — in particular the empty one — the
Decision is silently appended to each listed event's bucket, once per
occurrence of the event. -/
theorem addDecision_never_fails (eng : DecisionEngine) (n d : String)
    (u : UtilityScore) (e : List Event) (c : List Consideration) (ev : Event) :
    (eng.addDecision n d u e c).rules ev =
      eng.rules ev ++ List.replicate (e.count ev) (Decision.mk n d u c) :=
  addDecision_rules e eng n d u c ev

/-- C6 counterexample: addDecision called with an empty considerations list
does not raise an error — the Decision is registered in the bucket of the
listed event. -/
theorem addDecision_empty_considerations_registered :
    (DecisionEngine.empty.addDecision ("demo") ("") UtilityScore.Useful [0] []).rules 0 =
      [Decision.mk ("demo") ("") UtilityScore.Useful []] := rfl

/-- Witness for C2 at the concrete `halfConsideration`. -/
theorem consideration_computeScore_mem_unit_witness :
    0 ≤ halfConsideration.computeScore ∧ halfConsideration.computeScore ≤ 1 :=
  consideration_computeScore_mem_unit halfConsideration

/-- Witness for C9 at a MostUseful Decision with no Considerations. -/
theorem decision_no_considerations_score_witness :
    (Decision.mk ("idle") ("") UtilityScore.MostUseful []).computeScore =
      UtilityScore.toRat UtilityScore.MostUseful :=
  decision_no_considerations_score ("idle") ("") UtilityScore.MostUseful

/-- Witness for C10 at the empty engine. -/
theorem addDecision_no_events_witness :
    DecisionEngine.empty.addDecision ("noop") ("") UtilityScore.Ignore [] [] =
      DecisionEngine.empty :=
  addDecision_no_events DecisionEngine.empty ("noop") ("") UtilityScore.Ignore []

/-- Witness for C6 (amended) at event 1 of the empty engine. -/
theorem addDecision_never_fails_witness :
    (DecisionEngine.empty.addDecision ("w") ("") UtilityScore.Useful [1] []).rules 1 =
      DecisionEngine.empty.rules 1 ++
        List.replicate (List.count 1 [1]) (Decision.mk ("w") ("") UtilityScore.Useful []) :=
  addDecision_never_fails DecisionEngine.empty ("w") ("") UtilityScore.Useful [1] [] 1

/-- Concrete Useful-tier Decision scoring 9/5 (single consideration at
9/10). -/
def decA : Decision :=
  Decision.mk ("A") ("") UtilityScore.Useful
    [Consideration.mk ("const nine tenths") 0 (fun _ => 9 / 10) 0 1]

/-- Concrete SlightlyUseful-tier Decision scoring 1/2. -/
def decB : Decision :=
  Decision.mk ("B") ("") UtilityScore.SlightlyUseful
    [Consideration.mk ("const one half") 0 (fun _ => 1 / 2) 0 1]

/-- DecisionEngine with decA and decB active under event 0 and no pending sorts. -/
def demoEngine : DecisionEngine :=
  DecisionEngine.mk (fun _ => []) [(0, decA), (0, decB)] [0] []

/-- Witness for C1 on `demoEngine`: the pruned selection and the naive scan
both pick decA. -/
theorem getBestDecision_eq_naive_witness :
    naiveBest ((demoEngine.flush).active_rules) = some decA := by
  refine getBestDecision_eq_naive demoEngine ?_ decA ?_
  · have hl : (demoEngine.flush).active_rules = [(0, decA), (0, decB)] := rfl
    rw [hl]
    refine List.Pairwise.cons ?_ (List.Pairwise.cons ?_ List.Pairwise.nil)
    · intro b hb
      rw [List.mem_singleton.mp hb]
      norm_num [decA, decB, UtilityScore.toRat]
    · intro b hb
      exact absurd hb (List.not_mem_nil b)
  · rw [getBestDecision_cons demoEngine (0, decA) [(0, decB)] rfl]
    norm_num [selectLoop, decA, decB, Decision.computeScore, Decision.scoreLoop,
      Consideration.computeScore, clip, scale, UtilityScore.toRat]

/-- Witness for C4 at the empty engine: the Empty active rule set failure. -/
theorem getBestDecision_error_conditions_witness :
    DecisionEngine.empty.getBestDecision = Except.error ("Empty active rule set") :=
  ((getBestDecision_error_conditions DecisionEngine.empty List.Pairwise.nil).2.1).mpr rfl

end BehaviorEngine
